import Mathlib

/-!
Shallow embedding of the "representative cores" of `dyq666/sanji`
(`src/util/normal.py`): the sequence grouping family
(`fill_seq` / `seq_grouper` / `strip_seq`), the half-up rounding function
(`round_half_up`), and the static category tree (`KindTree` / `KindNode`).

Python sequences are modelled as Lean `List`s:
* `str` / `bytes` become `List Char` (the `bytes` case is byte-for-byte the
  same code path as `str` in `fill_seq` / `seq_grouper` / `strip_seq`, so a
  single embedding covers both);
* `list` / `tuple` become `List α`.

Fallible code returns `Except`.  Machine integers do not occur: all the
numbers involved are Python arbitrary-precision `int`s, modelled as `Nat`
(all claim inputs are nonnegative; `ndigits` is modelled as `Int` because the
source uses negative values).
-/

deriving instance DecidableEq for Except

namespace Sanji

/-! ### Sequence family (`src/util/normal.py`, `fill_seq`, `seq_grouper`, `strip_seq`)

`fill_seq` is polymorphic in Python over `str`/`bytes` (filler is itself a
string, required to have length 1, and is concatenated) and `list`/`tuple`
(filler is a scalar element, no length check).  The two code paths are
embedded separately as `fill_seq_str` and `fill_seq_list`.
-/

/-- `fill_seq` for the `str`/`bytes` branch.  Mirrors:
```
if isinstance(seq, (str, bytes)) and len(filler) != 1: raise ValueError
if len(seq) % size == 0: return seq
num = size - (len(seq) % size)
return seq + filler * num
```
The filler-length check runs before the divisibility early return.
(`size` is positive in every claim; Python would raise `ZeroDivisionError`
at `len(seq) % size` for `size == 0`, a case no claim touches.) -/
def fill_seq_str (seq : List Char) (size : Nat) (filler : List Char) :
    Except Unit (List Char) :=
  if filler.length ≠ 1 then
    .error ()
  else if seq.length % size = 0 then
    .ok seq
  else
    .ok (seq ++ (List.replicate (size - seq.length % size) filler).flatten)

/-- `fill_seq` for the `list`/`tuple` branch.  Mirrors:
```
if len(seq) % size == 0: return seq
num = size - (len(seq) % size)
return seq + type(seq)(filler for _ in range(num))
```
No filler validation happens on this branch (the `isinstance` guard fails). -/
def fill_seq_list {α : Type} (seq : List α) (size : Nat) (filler : α) :
    List α :=
  if seq.length % size = 0 then
    seq
  else
    seq ++ List.replicate (size - seq.length % size) filler

/-- `strip_seq`.  Mirrors:
```
remainder = len(seq) % size
end = -remainder if remainder else None
return seq[:end]
```
i.e. drop the last `len % size` elements (a no-op when the length already
divides evenly, because `seq[:None]` is the whole sequence). -/
def strip_seq {α : Type} (seq : List α) (size : Nat) : List α :=
  seq.take (seq.length - seq.length % size)

/-- Python `range(0, stop, step)` for `step > 0`: the multiples of `step`
below `stop`, i.e. `[0, step, 2*step, ...]`, of length `⌈stop/step⌉`.
(For `step = 0` Python raises `ValueError`; no claim uses `size = 0`.) -/
def pyRange (stop step : Nat) : List Nat :=
  (List.range ((stop + step - 1) / step)).map (· * step)

/-- `seq_grouper` without a filler.  Mirrors
`(seq[i: i + size] for i in range(0, len(seq), size))`;
the generator is materialised as the list of its elements, and the Python
slice `seq[i : i + size]` is `(seq.drop i).take size`. -/
def seq_grouper {α : Type} (seq : List α) (size : Nat) : List (List α) :=
  (pyRange seq.length size).map (fun i => (seq.drop i).take size)

/-- `seq_grouper` with a filler, on the `str`/`bytes` branch.  Mirrors:
```
if filler is not no_value: seq = fill_seq(seq, size, filler)
return (seq[i: i + size] for i in range(0, len(seq), size))
```
`fill_seq` runs eagerly when `seq_grouper` is called, so its `ValueError`
propagates before any chunk is produced. -/
def seq_grouper_str_filled (seq : List Char) (size : Nat)
    (filler : List Char) : Except Unit (List (List Char)) :=
  match fill_seq_str seq size filler with
  | .error e => .error e
  | .ok s => .ok (seq_grouper s size)

/-! ### Lemmas about the sequence family -/

theorem fill_seq_list_mod {α : Type} (s : List α) (n : Nat) (f : α)
    (hn : 0 < n) : (fill_seq_list s n f).length % n = 0 := by
  unfold fill_seq_list
  split
  · assumption
  · rename_i h
    have h1 : s.length % n < n := Nat.mod_lt _ hn
    simp only [List.length_append, List.length_replicate]
    rw [Nat.add_mod, Nat.mod_eq_of_lt (a := n - s.length % n) (by omega)]
    have h2 : s.length % n + (n - s.length % n) = n := by omega
    rw [h2, Nat.mod_self]

theorem strip_seq_of_mod_eq_zero {α : Type} (s : List α) (n : Nat)
    (h : s.length % n = 0) : strip_seq s n = s := by
  unfold strip_seq
  rw [h, Nat.sub_zero, List.take_length]

theorem seq_grouper_flatten_aux {α : Type} (n : Nat) (hn : 0 < n) :
    ∀ (cnt : Nat) (s : List α), (s.length + n - 1) / n = cnt →
      ((List.range cnt).map (fun i => (s.drop (i * n)).take n)).flatten = s := by
  intro cnt
  induction cnt with
  | zero =>
    intro s h
    have h1 : ¬ (1 ≤ (s.length + n - 1) / n) := by omega
    rw [Nat.le_div_iff_mul_le hn] at h1
    have h2 : s.length = 0 := by omega
    rw [List.eq_nil_of_length_eq_zero h2]
    rfl
  | succ cnt ih =>
    intro s h
    have hpos : 0 < s.length := by
      by_contra hc
      have h0 : s.length = 0 := by omega
      rw [h0] at h
      rw [Nat.div_eq_of_lt (by omega)] at h
      omega
    rw [List.range_succ_eq_map, List.map_cons, List.flatten_cons,
      Nat.zero_mul, List.drop_zero, List.map_map]
    have hfun : ((fun i => (s.drop (i * n)).take n) ∘ Nat.succ)
        = fun i => ((s.drop n).drop (i * n)).take n := by
      funext i
      simp only [Function.comp_apply, List.drop_drop]
      have : Nat.succ i * n = n + i * n := by
        rw [Nat.succ_mul, Nat.add_comm]
      rw [this]
    rw [hfun]
    rw [ih (s.drop n) ?_]
    · exact List.take_append_drop n s
    · rw [List.length_drop]
      rcases le_or_lt n s.length with hle | hlt
      · have e1 : s.length - n + n - 1 = s.length - 1 := by omega
        have e2 : s.length + n - 1 = (s.length - 1) + n := by omega
        rw [e2, Nat.add_div_right _ hn] at h
        rw [e1]
        omega
      · have e1 : s.length - n = 0 := by omega
        rw [e1]
        have h2 : (s.length + n - 1) / n < 2 := by
          rw [Nat.div_lt_iff_lt_mul hn]
          omega
        rw [Nat.div_eq_of_lt (by omega)]
        omega

theorem seq_grouper_eq_chunks {α : Type} (s : List α) (n : Nat) :
    seq_grouper s n
      = (List.range ((s.length + n - 1) / n)).map
          (fun i => (s.drop (i * n)).take n) := by
  unfold seq_grouper pyRange
  rw [List.map_map]
  rfl

/-- C5: for every sequence `s` and positive block size `n`, the chunks of
`seq_grouper(s, n)` (no filler) concatenate back to `s`; chunk `i` is the
slice of `s` from `i*n` to `(i+1)*n`; the empty input produces zero chunks
(not one empty chunk), and a block size at least the length of a nonempty
input produces the single chunk `[s]`.  The concrete examples from the spec
(`'0123456789'` with sizes 9, 10, 11) are included.  -/
theorem seq_grouper_spec :
    (∀ (α : Type) (s : List α) (n : Nat), 0 < n →
      (seq_grouper s n).flatten = s ∧
      (∀ i : Nat, i * n < s.length →
        (seq_grouper s n)[i]? = some ((s.take ((i + 1) * n)).drop (i * n))) ∧
      (s = [] → seq_grouper s n = []) ∧
      (0 < s.length → s.length ≤ n → seq_grouper s n = [s]))
    ∧ seq_grouper "0123456789".toList 9 = ["012345678".toList, "9".toList]
    ∧ seq_grouper "0123456789".toList 10 = ["0123456789".toList]
    ∧ seq_grouper "0123456789".toList 11 = ["0123456789".toList] := by
  refine ⟨fun α s n hn => ⟨?_, ?_, ?_, ?_⟩, by decide, by decide, by decide⟩
  · rw [seq_grouper_eq_chunks]
    exact seq_grouper_flatten_aux n hn _ s rfl
  · intro i hi
    rw [seq_grouper_eq_chunks]
    have hcnt : i < (s.length + n - 1) / n := by
      have h1 : i + 1 ≤ (s.length + n - 1) / n := by
        rw [Nat.le_div_iff_mul_le hn, Nat.add_mul, Nat.one_mul]
        omega
      omega
    rw [List.getElem?_map, List.getElem?_range hcnt]
    have e1 : (i + 1) * n - i * n = n := by
      rw [Nat.add_mul, Nat.one_mul]
      omega
    rw [List.drop_take, e1]
    rfl
  · intro he
    subst he
    rw [seq_grouper_eq_chunks]
    simp only [List.length_nil, Nat.zero_add]
    rw [Nat.div_eq_of_lt (by omega)]
    rfl
  · intro hpos hle
    rw [seq_grouper_eq_chunks]
    have hcnt : (s.length + n - 1) / n = 1 := by
      apply Nat.div_eq_of_lt_le
      · omega
      · omega
    rw [hcnt]
    simp only [List.range_succ, List.range_zero, List.nil_append,
      List.map_cons, List.map_nil, Nat.zero_mul, List.drop_zero]
    rw [List.take_of_length_le hle]

/-- Witness for `seq_grouper_spec` at `s = [0,1,2]`, `n = 2`. -/
theorem seq_grouper_spec_witness :
    (seq_grouper [0, 1, 2] 2).flatten = [0, 1, 2] ∧
    seq_grouper ([] : List Nat) 2 = [] ∧
    seq_grouper [4, 5] 3 = [[4, 5]] := by
  have h1 := seq_grouper_spec.1 Nat [0, 1, 2] 2 (by decide)
  have h2 := seq_grouper_spec.1 Nat ([] : List Nat) 2 (by decide)
  have h3 := seq_grouper_spec.1 Nat [4, 5] 3 (by decide)
  exact ⟨h1.1, h2.2.2.1 rfl, h3.2.2.2 (by decide) (by decide)⟩

/-- C2 counterexample: with `s = [0]`, `n = 2`, filler `f = 1` we have
`len(s) ≤ n` and the filler differs from the trailing content of `s`, yet
`strip_seq(fill_seq(s, n, f), n)` is the padded sequence `[0, 1]`, not `s`:
`strip_seq` only removes the `len % size` trailing elements, and the filled
sequence's length is already a multiple of `size`. -/
theorem strip_fill_roundtrip_cex :
    ([0] : List Nat).length ≤ 2 ∧ (1 : Nat) ≠ 0 ∧
    fill_seq_list [0] 2 1 = [0, 1] ∧
    strip_seq (fill_seq_list [0] 2 1) 2 = [0, 1] ∧
    strip_seq (fill_seq_list [0] 2 1) 2 ≠ [0] := by decide

/-- C2 (amended): `strip_seq(fill_seq(s, n, f), n)` always equals
`fill_seq(s, n, f)` (the filled length is a multiple of `n` and `strip_seq`
only trims the remainder), and the round trip returns `s` exactly when
`len(s)` is already a multiple of `n` — the filler value is irrelevant. -/
theorem strip_fill_roundtrip :
    (∀ (α : Type) (s : List α) (n : Nat) (f : α), 0 < n →
      strip_seq (fill_seq_list s n f) n = fill_seq_list s n f) ∧
    (∀ (α : Type) (s : List α) (n : Nat) (f : α), 0 < n →
      s.length % n = 0 → strip_seq (fill_seq_list s n f) n = s) := by
  constructor
  · intro α s n f hn
    exact strip_seq_of_mod_eq_zero _ _ (fill_seq_list_mod s n f hn)
  · intro α s n f hn hmod
    have hfill : fill_seq_list s n f = s := by
      unfold fill_seq_list
      rw [if_pos hmod]
    rw [hfill, strip_seq_of_mod_eq_zero _ _ hmod]

/-- Witness for `strip_fill_roundtrip` at `s = [0,1]`, `n = 2`, `f = 7`. -/
theorem strip_fill_roundtrip_witness :
    0 < 2 ∧ ([0, 1] : List Nat).length % 2 = 0 ∧
    strip_seq (fill_seq_list [0, 1] 2 7) 2 = fill_seq_list [0, 1] 2 7 ∧
    strip_seq (fill_seq_list [0, 1] 2 7) 2 = [0, 1] :=
  ⟨by decide, by decide, strip_fill_roundtrip.1 Nat [0, 1] 2 7 (by decide),
    strip_fill_roundtrip.2 Nat [0, 1] 2 7 (by decide) (by decide)⟩

/-- C10: for a text/bytes sequence whose length is already an exact multiple
of `size`, `fill_seq` (directly or via `seq_grouper` with a filler) still
raises `ValueError` when the filler's length is not 1: the filler-length
check runs before the divisibility early return. -/
theorem fill_filler_checked_first (s : List Char) (size : Nat)
    (filler : List Char) (_hmod : s.length % size = 0)
    (hf : filler.length ≠ 1) :
    fill_seq_str s size filler = .error () ∧
    seq_grouper_str_filled s size filler = .error () := by
  have h1 : fill_seq_str s size filler = .error () := by
    unfold fill_seq_str
    rw [if_pos hf]
  refine ⟨h1, ?_⟩
  unfold seq_grouper_str_filled
  rw [h1]

/-- Witness for `fill_filler_checked_first` at `s = "ab"`, `size = 2`,
`filler = "xy"`. -/
theorem fill_filler_checked_first_witness :
    "ab".toList.length % 2 = 0 ∧ "xy".toList.length ≠ 1 ∧
    fill_seq_str "ab".toList 2 "xy".toList = .error () ∧
    seq_grouper_str_filled "ab".toList 2 "xy".toList = .error () := by
  have h := fill_filler_checked_first "ab".toList 2 "xy".toList
    (by decide) (by decide)
  exact ⟨by decide, by decide, h.1, h.2⟩

/-! ### Rounding (`src/util/normal.py`, `round_half_up`)

The `ndigits <= 0` branch operates on Python's `round` (banker's rounding)
plus literal decimal-digit extraction from `str(number)` with negative
string indexing; it is embedded for nonnegative integer inputs (every claim
example on this branch is a nonnegative `int`, and the spec itself leaves
sign handling unspecified).  The `ndigits > 0` branch goes through
`Decimal(str(number)).quantize(..., ROUND_HALF_UP)`; it is embedded at the
decimal level, a nonnegative decimal `mant / 10^exp` (for the claims'
literals `0.125`, `0.155`, Python's shortest-round-trip `repr` recovers the
written decimal digits exactly, so `Decimal(str(number))` is that decimal).
-/

/-- Number of characters of `str(n)` for a nonnegative integer `n`
(structural recursion on a fuel argument so that concrete values reduce in
the kernel; `fuel = n + 1` always suffices since the digit count of `n` is
at most `n + 1`). -/
def numLenAux : Nat → Nat → Nat
  | 0, _ => 0
  | fuel + 1, n => if n < 10 then 1 else numLenAux fuel (n / 10) + 1

/-- `len(str(n))` for `n ≥ 0`. -/
def numLen (n : Nat) : Nat :=
  numLenAux (n + 1) n

/-- The only exception the rounding embedding can raise. -/
inductive PyErr where
  | indexError
  deriving DecidableEq

/-- `_get_number(_ndigits) = int(str(number)[_ndigits - 1])` for a
nonnegative integer `number`, including Python's negative-index semantics:
for an index `i < 0` the character is `s[len(s) + i]`, and an index outside
`[-len(s), len(s))` raises `IndexError`.  The digit `j` places from the end
(1-based) of `str(n)` is `n / 10^(j-1) % 10`; the digit at 0-based position
`i` from the front is `n / 10^(len-1-i) % 10`. -/
def getNumber (n : Nat) (nd : Int) : Except PyErr Nat :=
  let i : Int := nd - 1
  if 0 ≤ i then
    if i.toNat < numLen n then
      .ok (n / 10 ^ (numLen n - 1 - i.toNat) % 10)
    else
      .error .indexError
  else
    let j : Nat := (-i).toNat
    if j ≤ numLen n then
      .ok (n / 10 ^ (j - 1) % 10)
    else
      .error .indexError

/-- Python's `round(n, nd)` for a nonnegative integer `n` and `nd ≤ 0`:
round to the nearest multiple of `10^(-nd)`, ties to the even multiple
(banker's rounding; exact integer arithmetic in CPython).  For `nd ≥ 0`
this returns `n` unchanged, as Python does on an `int`. -/
def roundHalfEvenNat (n : Nat) (nd : Int) : Nat :=
  let m := 10 ^ (-nd).toNat
  let q := n / m
  let r := n % m
  if 2 * r < m then q * m
  else if m < 2 * r then (q + 1) * m
  else if q % 2 = 0 then q * m
  else (q + 1) * m

/-- The `ndigits <= 0` branch of `round_half_up` for a nonnegative integer
input.  Mirrors:
```
half_even_result = int(round(number, ndigits))
if all((_get_number(ndigits) & 1 == 0,
        _get_number(ndigits + 1) == 5,
        number % (10 ** abs(ndigits + 1)) == 0)):
    return half_even_result + 10 ** abs(ndigits)
return half_even_result
```
`all` on a tuple evaluates every member first, so both `_get_number` calls
run (and can raise `IndexError`) regardless of the other conditions. -/
def round_half_up_int (n : Nat) (nd : Int) : Except PyErr Nat :=
  let hev := roundHalfEvenNat n nd
  match getNumber n nd, getNumber n (nd + 1) with
  | .error e, _ => .error e
  | .ok _, .error e => .error e
  | .ok d1, .ok d2 =>
    if d1 % 2 = 0 ∧ d2 = 5 ∧ n % 10 ^ (nd + 1).natAbs = 0 then
      .ok (hev + 10 ^ nd.natAbs)
    else
      .ok hev

/-- The `ndigits > 0` branch of `round_half_up` at the decimal level:
`Decimal(str(number)).quantize(Decimal('0.0...1'), rounding=ROUND_HALF_UP)`
applied to the nonnegative decimal `mant / 10^exp`, quantized to `nd`
fractional digits.  Returns the resulting decimal as
(mantissa, number of fractional digits). -/
def quantizeHalfUp (mant exp nd : Nat) : Nat × Nat :=
  if exp ≤ nd then
    (mant * 10 ^ (nd - exp), nd)
  else
    let d := 10 ^ (exp - nd)
    let q := mant / d
    let r := mant % d
    (if d ≤ 2 * r then q + 1 else q, nd)

/-- Modelled from the spec: "ordinary round half away from zero" of a
nonnegative integer to the `10^(-nd)` position (`nd ≤ 0`), the behaviour
the spec says `round_half_up` exhibits away from the tie-with-even-digit
pattern. -/
def specRoundHalfAway (n : Nat) (nd : Int) : Nat :=
  let m := 10 ^ (-nd).toNat
  let q := n / m
  let r := n % m
  if m ≤ 2 * r then (q + 1) * m else q * m

/-- C3: on the half-way-with-even-retained-digit pattern `round_half_up`
does round away from zero where banker's rounding rounds to even —
`round_half_up(10500, -3) = 11000` against `round(10500, -3) = 10000`, and
`round_half_up(0.125, 2) = 0.13` — but the universal claim fails on the
code: the in-pattern input `number = 5, ndigits = -1` (retained tens digit
0 is even, the digit below is 5, no lower digits) makes
`_get_number(-1) = int(str(5)[-2])` raise `IndexError` instead of
returning the intended 10. -/
theorem round_half_up_tie_pattern_eval :
    round_half_up_int 10500 (-3) = .ok 11000 ∧
    roundHalfEvenNat 10500 (-3) = 10000 ∧
    quantizeHalfUp 125 3 2 = (13, 2) ∧
    round_half_up_int 5 (-1) = .error .indexError ∧
    specRoundHalfAway 5 (-1) = 10 :=
  ⟨rfl, rfl, rfl, rfl, rfl⟩

/-- C7: away from the half-way pattern `round_half_up` does agree with
ordinary round-half-away-from-zero on the spec's examples —
`round_half_up(10499, -3) = 10000` and `round_half_up(0.155, 2) = 0.16`
(exact decimal arithmetic) — but the universal claim fails on the code:
for `number = 50, ndigits = 0` (not in the pattern: the digit below the
units position of an integer is 0, not 5) the string-indexing conditions
`str(50)[-1] = '0'` even, `str(50)[0] = '5'`, `50 % 10 == 0` all fire and
the function returns `round(50, 0) + 10^0 = 51` instead of 50. -/
theorem round_half_up_agreement_eval :
    round_half_up_int 10499 (-3) = .ok 10000 ∧
    quantizeHalfUp 155 3 2 = (16, 2) ∧
    round_half_up_int 50 0 = .ok 51 ∧
    specRoundHalfAway 50 0 = 50 :=
  ⟨rfl, rfl, rfl, rfl⟩

/-! ### Category tree (`src/util/normal.py`, `KindTree` / `KindNode`)

`KindTree.__init__` takes a table of `(id, parent_id, name, const)` rows.
Pass 1 fills the insertion-ordered dict `data1` keyed by `id`, raising
`ValueError` at the first duplicate id.  Pass 2 walks, for each row in
table order, the `parent_id` chain upward (`data1[parent_id]` raising
`KeyError` on a dangling reference, and looping forever on a cycle),
collecting `parent_ids` and adding the current id to `childs[p]` for
*every* ancestor `p` visited.  Finally each row becomes a `KindNode`.

Embedding notes:
* `data1` is the row list itself (ids unique after pass 1, so dict lookup
  is `List.find?` on the id);
* the unbounded `while` loop is given the fuel `tbl.length + 1`, which is
  exact: a terminating walk visits pairwise-distinct in-table ids plus at
  most one dangling id, so it consumes at most `tbl.length + 1` steps, and
  fuel exhaustion (`BuildError.nonTermination`) happens exactly when the
  Python loop would never terminate;
* `childs[id]` is a Python `set`; it is modelled as the list of its
  members in table order (claims touch only membership and emptiness);
* the `KindNode.tree` back-reference and the `setattr` constant accessors
  are omitted: no claim mentions them (`const` is kept as row data);
* a failed construction returns `Except.error`, so no tree value exists —
  Python's `__init__` raising before the caller ever receives the object.
-/

/-- One row of the input table: `(id, parent_id, name, const)`. -/
structure Row where
  id : String
  parent_id : Option String
  name : String
  const : Option String
  deriving DecidableEq

/-- The exceptions `KindTree.__init__` can raise, plus `nonTermination`
marking the diverging (cyclic-table) case, which Python does not report at
all. -/
inductive BuildError where
  | valueError
  | keyError
  | nonTermination
  deriving DecidableEq

/-- Dict lookup `data1[i]` as a lookup in the (unique-id) row table. -/
def findRow (tbl : List Row) (i : String) : Option Row :=
  tbl.find? (fun r => r.id == i)

/-- Pass 1 of `KindTree.__init__`: iterate the rows, raising `ValueError`
at the first id already seen (`if id_ in data1: raise ValueError`). -/
def checkDupAux : List Row → List String → Except BuildError Unit
  | [], _ => .ok ()
  | r :: rest, seen =>
    if r.id ∈ seen then .error .valueError
    else checkDupAux rest (r.id :: seen)

/-- The `while parent_id is not None` ancestor walk of pass 2, collecting
the ancestor ids nearest-first.  `data1[parent_id]` on a missing id raises
`KeyError`; running out of fuel models the loop never terminating. -/
def walk (tbl : List Row) : Nat → Option String → Except BuildError (List String)
  | _, none => .ok []
  | 0, some _ => .error .nonTermination
  | fuel + 1, some p =>
    match findRow tbl p with
    | none => .error .keyError
    | some r =>
      match walk tbl fuel r.parent_id with
      | .error e => .error e
      | .ok rest => .ok (p :: rest)

/-- Pass 2, run for every row in table order: the first failing walk aborts
construction with its error. -/
def walkChains (tbl : List Row) :
    List Row → Except BuildError (List (Row × List String))
  | [] => .ok []
  | r :: rest =>
    match walk tbl (tbl.length + 1) r.parent_id with
    | .error e => .error e
    | .ok c =>
      match walkChains tbl rest with
      | .error e => .error e
      | .ok rcs => .ok ((r, c) :: rcs)

/-- A built node (`KindNode`), without the `tree` back-reference. -/
structure KindNode where
  id : String
  parent_id : Option String
  root_id : Option String
  parent_ids : List String
  child_ids : List String
  name : String
  deriving DecidableEq

/-- `childs[i]` after all walks: the ids (in table order) of the rows whose
ancestor chain contains `i` — the walk executes `childs[p].add(id_)` for
every ancestor `p` it visits, not only the direct parent. -/
def childIdsOf (rcs : List (Row × List String)) (i : String) : List String :=
  (rcs.filter (fun x => decide (i ∈ x.2))).map (fun x => x.1.id)

/-- Build one `KindNode` from a row and its ancestor chain:
`parent_id = parent_ids[0] if parent_ids else None`,
`root_id = parent_ids[-1] if parent_ids else None`. -/
def mkNode (rcs : List (Row × List String)) (x : Row × List String) :
    KindNode :=
  { id := x.1.id
    parent_id := x.2.head?
    root_id := x.2.getLast?
    parent_ids := x.2
    child_ids := childIdsOf rcs x.1.id
    name := x.1.name }

/-- The built tree: `self.nodes`, an insertion-ordered dict keyed by id,
modelled as the node list in table order. -/
structure KindTree where
  nodes : List KindNode
  deriving DecidableEq

/-- `KindTree.__init__` end to end. -/
def buildTree (tbl : List Row) : Except BuildError KindTree :=
  match checkDupAux tbl [] with
  | .error e => .error e
  | .ok _ =>
    match walkChains tbl tbl with
    | .error e => .error e
    | .ok rcs => .ok { nodes := rcs.map (mkNode rcs) }

/-- `KindTree.get`: `self.nodes.get(kind_id)`. -/
def KindTree.get (t : KindTree) (i : String) : Option KindNode :=
  t.nodes.find? (fun n => n.id == i)

/-- `KindTree.gets`:
`[kind for id_ in kind_ids if (kind := self.nodes.get(id_)) is not None]`. -/
def KindTree.gets (t : KindTree) (ids : List String) : List KindNode :=
  ids.filterMap t.get

/-- Specification-side predicate (phrased from the spec's words): `ys` is
the full ancestor chain of a node whose row-level parent reference is
`pid` — nearest ancestor first, each element's row the parent of the
previous one, ending at a root (a row with no parent). -/
def isChain (tbl : List Row) : Option String → List String → Bool
  | pid, [] => pid == none
  | pid, p :: rest =>
    pid == some p &&
      match findRow tbl p with
      | none => false
      | some r => isChain tbl r.parent_id rest

/-! Concrete instances used by the claims. -/

/-- The three-row table from the spec's worked example. -/
def exTable3 : List Row :=
  [⟨"1", none, "电器", none⟩,
   ⟨"10", some "1", "电脑", some "COMPUTER"⟩,
   ⟨"101", some "10", "笔记本电脑", none⟩]

/-- Fallback node for `Option.getD` (never actually selected below). -/
def defaultNode : KindNode :=
  ⟨"", none, none, [], [], ""⟩

/-- The tree built from `exTable3` (the build succeeds, see
`ex3_build_ok`). -/
def ex3Tree : KindTree :=
  (buildTree exTable3).toOption.getD ⟨[]⟩

/-- Node `'1'` of `ex3Tree`. -/
def ex3n1 : KindNode := (ex3Tree.get "1").getD defaultNode

/-- Node `'10'` of `ex3Tree`. -/
def ex3n10 : KindNode := (ex3Tree.get "10").getD defaultNode

/-- Node `'101'` of `ex3Tree`. -/
def ex3n101 : KindNode := (ex3Tree.get "101").getD defaultNode

theorem ex3_build_ok : buildTree exTable3 = .ok ex3Tree := rfl

/-! ### Lemmas about the category tree construction -/

theorem checkDupAux_cases (l : List Row) (seen : List String) :
    checkDupAux l seen = .ok () ∨ checkDupAux l seen = .error .valueError := by
  induction l generalizing seen with
  | nil => exact Or.inl rfl
  | cons r rest ih =>
    unfold checkDupAux
    split
    · exact Or.inr rfl
    · exact ih _

theorem checkDupAux_ok_iff (l : List Row) (seen : List String) :
    checkDupAux l seen = .ok ()
      ↔ ((l.map Row.id).Nodup ∧ ∀ r ∈ l, r.id ∉ seen) := by
  induction l generalizing seen with
  | nil => simp [checkDupAux]
  | cons r rest ih =>
    unfold checkDupAux
    by_cases hmem : r.id ∈ seen
    · rw [if_pos hmem]
      constructor
      · intro h
        simp at h
      · rintro ⟨-, h2⟩
        exact absurd hmem (h2 r (List.mem_cons_self r rest))
    · rw [if_neg hmem, ih]
      constructor
      · rintro ⟨hnd, hseen⟩
        have hnotin : r.id ∉ rest.map Row.id := by
          intro hin
          obtain ⟨x, hx, hxid⟩ := List.mem_map.mp hin
          have h2 := hseen x hx
          rw [hxid] at h2
          exact h2 (List.mem_cons_self r.id seen)
        constructor
        · rw [List.map_cons, List.nodup_cons]
          exact ⟨hnotin, hnd⟩
        · intro x hx
          rcases List.mem_cons.mp hx with he | hm
          · subst he
            exact hmem
          · exact fun hs => hseen x hm (List.mem_cons_of_mem _ hs)
      · rintro ⟨hnd, hall⟩
        rw [List.map_cons, List.nodup_cons] at hnd
        refine ⟨hnd.2, fun x hx hs => ?_⟩
        rcases List.mem_cons.mp hs with he | hs2
        · exact hnd.1 (he ▸ List.mem_map_of_mem Row.id hx)
        · exact hall x (List.mem_cons_of_mem _ hx) hs2

theorem findRow_eq_some {tbl : List Row} {i : String} {r : Row}
    (h : findRow tbl i = some r) : r ∈ tbl ∧ r.id = i := by
  unfold findRow at h
  have hp := List.find?_some (p := fun rr : Row => rr.id == i) h
  have hp2 : (r.id == i) = true := hp
  exact ⟨List.mem_of_find?_eq_some h, eq_of_beq hp2⟩

theorem findRow_eq_none {tbl : List Row} {i : String}
    (h : i ∉ tbl.map Row.id) : findRow tbl i = none := by
  apply List.find?_eq_none.mpr
  intro r hr hbeq
  exact h ((eq_of_beq hbeq) ▸ List.mem_map_of_mem Row.id hr)

theorem findRow_of_mem_nodup {tbl : List Row} {r : Row}
    (hnodup : (tbl.map Row.id).Nodup) (hr : r ∈ tbl) :
    findRow tbl r.id = some r := by
  induction tbl with
  | nil => cases hr
  | cons x rest ih =>
    rw [List.map_cons, List.nodup_cons] at hnodup
    rcases List.mem_cons.mp hr with he | hm
    · subst he
      unfold findRow
      exact List.find?_cons_of_pos rest
        (show (r.id == r.id) = true from beq_self_eq_true r.id)
    · have hne : (x.id == r.id) = false := by
        apply beq_eq_false_iff_ne.mpr
        intro he2
        exact hnodup.1 (he2 ▸ List.mem_map_of_mem Row.id hm)
      unfold findRow
      have hstep := List.find?_cons_of_neg (p := fun rr => rr.id == r.id)
        (a := x) rest
        (by
          show ¬ (x.id == r.id) = true
          rw [hne]
          exact Bool.false_ne_true)
      rw [hstep]
      exact ih hnodup.2 hm

theorem walk_ne_valueError (tbl : List Row) :
    ∀ (fuel : Nat) (pid : Option String),
      walk tbl fuel pid ≠ .error .valueError := by
  intro fuel
  induction fuel with
  | zero =>
    intro pid
    cases pid with
    | none => simp [walk]
    | some p => simp [walk]
  | succ fuel ih =>
    intro pid
    cases pid with
    | none => simp [walk]
    | some p =>
      intro hcontra
      unfold walk at hcontra
      cases hf : findRow tbl p with
      | none =>
        simp only [hf] at hcontra
        cases hcontra
      | some r =>
        simp only [hf] at hcontra
        cases hw : walk tbl fuel r.parent_id with
        | error e =>
          simp only [hw] at hcontra
          cases hcontra
          exact ih r.parent_id hw
        | ok rest =>
          simp only [hw] at hcontra
          cases hcontra

theorem walk_isChain (tbl : List Row) :
    ∀ (fuel : Nat) (pid : Option String) (ys : List String),
      walk tbl fuel pid = .ok ys → isChain tbl pid ys = true := by
  intro fuel
  induction fuel with
  | zero =>
    intro pid ys h
    cases pid with
    | none =>
      cases h
      rfl
    | some p => cases h
  | succ fuel ih =>
    intro pid ys h
    cases pid with
    | none =>
      cases h
      rfl
    | some p =>
      unfold walk at h
      cases hf : findRow tbl p with
      | none =>
        simp only [hf] at h
        cases h
      | some r =>
        simp only [hf] at h
        cases hw : walk tbl fuel r.parent_id with
        | error e =>
          simp only [hw] at h
          cases h
        | ok rest =>
          simp only [hw] at h
          cases h
          unfold isChain
          rw [hf]
          rw [Bool.and_eq_true]
          exact ⟨beq_self_eq_true _, ih r.parent_id rest hw⟩

theorem walkChains_fst (tbl : List Row) :
    ∀ {l : List Row} {rcs : List (Row × List String)},
      walkChains tbl l = .ok rcs → rcs.map Prod.fst = l := by
  intro l
  induction l with
  | nil =>
    intro rcs h
    cases h
    rfl
  | cons r rest ih =>
    intro rcs h
    unfold walkChains at h
    cases hw : walk tbl (tbl.length + 1) r.parent_id with
    | error e =>
      simp only [hw] at h
      cases h
    | ok c =>
      simp only [hw] at h
      cases hr : walkChains tbl rest with
      | error e =>
        simp only [hr] at h
        cases h
      | ok rcs2 =>
        simp only [hr] at h
        cases h
        rw [List.map_cons, ih hr]

theorem walkChains_mem (tbl : List Row) :
    ∀ {l : List Row} {rcs : List (Row × List String)},
      walkChains tbl l = .ok rcs →
        ∀ x ∈ rcs, walk tbl (tbl.length + 1) x.1.parent_id = .ok x.2 := by
  intro l
  induction l with
  | nil =>
    intro rcs h
    cases h
    intro x hx
    cases hx
  | cons r rest ih =>
    intro rcs h
    unfold walkChains at h
    cases hw : walk tbl (tbl.length + 1) r.parent_id with
    | error e =>
      simp only [hw] at h
      cases h
    | ok c =>
      simp only [hw] at h
      cases hr : walkChains tbl rest with
      | error e =>
        simp only [hr] at h
        cases h
      | ok rcs2 =>
        simp only [hr] at h
        cases h
        intro x hx
        rcases List.mem_cons.mp hx with he | hm
        · subst he
          exact hw
        · exact ih hr x hm

theorem walkChains_error (tbl : List Row) :
    ∀ (l : List Row),
      (∃ r ∈ l, walk tbl (tbl.length + 1) r.parent_id = .error .keyError) →
      (∀ r ∈ l, walk tbl (tbl.length + 1) r.parent_id ≠ .error .nonTermination) →
      walkChains tbl l = .error .keyError := by
  intro l
  induction l with
  | nil =>
    rintro ⟨r, hr, -⟩ -
    cases hr
  | cons r0 rest ih =>
    rintro ⟨r, hr, hkey⟩ hterm
    unfold walkChains
    cases hw : walk tbl (tbl.length + 1) r0.parent_id with
    | error e =>
      simp only [hw]
      cases e with
      | valueError => exact absurd hw (walk_ne_valueError tbl _ _)
      | keyError => rfl
      | nonTermination =>
        exact absurd hw (hterm r0 (List.mem_cons_self r0 rest))
    | ok c =>
      simp only [hw]
      have hr2 : r ∈ rest := by
        rcases List.mem_cons.mp hr with he | hm
        · subst he
          rw [hw] at hkey
          cases hkey
        · exact hm
      rw [ih ⟨r, hr2, hkey⟩ (fun x hx => hterm x (List.mem_cons_of_mem r0 hx))]

theorem build_inv {tbl : List Row} {t : KindTree}
    (h : buildTree tbl = .ok t) :
    ∃ rcs, checkDupAux tbl [] = .ok () ∧ walkChains tbl tbl = .ok rcs ∧
      t.nodes = rcs.map (mkNode rcs) := by
  unfold buildTree at h
  cases hc : checkDupAux tbl [] with
  | error e =>
    simp only [hc] at h
    cases h
  | ok u =>
    cases u
    simp only [hc] at h
    cases hw : walkChains tbl tbl with
    | error e =>
      simp only [hw] at h
      cases h
    | ok rcs =>
      simp only [hw] at h
      cases h
      exact ⟨rcs, rfl, rfl, rfl⟩

theorem build_nodup {tbl : List Row} {t : KindTree}
    (h : buildTree tbl = .ok t) : (tbl.map Row.id).Nodup := by
  obtain ⟨rcs, hdup, -, -⟩ := build_inv h
  exact ((checkDupAux_ok_iff tbl []).mp hdup).1

theorem build_node_mem {tbl : List Row} {t : KindTree} {n : KindNode}
    (h : buildTree tbl = .ok t) (hn : n ∈ t.nodes) :
    ∃ rcs x, walkChains tbl tbl = .ok rcs ∧ x ∈ rcs ∧ n = mkNode rcs x := by
  obtain ⟨rcs, -, hw, hnodes⟩ := build_inv h
  rw [hnodes] at hn
  obtain ⟨x, hx, hmk⟩ := List.mem_map.mp hn
  exact ⟨rcs, x, hw, hx, hmk.symm⟩

theorem mem_childIdsOf {rcs : List (Row × List String)} {i j : String} :
    j ∈ childIdsOf rcs i ↔ ∃ x ∈ rcs, i ∈ x.2 ∧ x.1.id = j := by
  simp only [childIdsOf, List.mem_map, List.mem_filter, decide_eq_true_eq]
  constructor
  · rintro ⟨x, ⟨hx, hi⟩, hj⟩
    exact ⟨x, hx, hi, hj⟩
  · rintro ⟨x, hx, hi, hj⟩
    exact ⟨x, ⟨hx, hi⟩, hj⟩

/-! ### Claim theorems about the category tree -/

/-- C1 counterexample: in the tree built from the spec's three-level table,
the id `'101'` appears in the `child_ids` of node `'1'`, although the row
of `'101'` has `parent_id = '10' ≠ '1'` — a grandchild's id sits in its
grandparent's `child_ids`, so `child_ids` is not "one level down only". -/
theorem child_ids_direct_cex :
    buildTree exTable3 = .ok ex3Tree ∧
    ex3Tree.get "1" = some ex3n1 ∧
    ex3n1.id = "1" ∧
    "101" ∈ ex3n1.child_ids ∧
    findRow exTable3 "101" = some ⟨"101", some "10", "笔记本电脑", none⟩ ∧
    some "10" ≠ some "1" := by
  refine ⟨rfl, rfl, rfl, by decide, rfl, by decide⟩

/-- C1 (amended): in every successfully built `KindTree`, a node `b`'s id
is in a node `a`'s `child_ids` exactly when `a`'s id occurs in `b`'s
ancestor chain `parent_ids` — `child_ids` is the set of ids of all
transitive descendants (the construction walk adds the current node to
`childs[p]` for every ancestor `p` it visits), not only the direct
children.  Concretely, node `'1'` of the three-row example has both its
child `'10'` and its grandchild `'101'` in `child_ids`. -/
theorem child_ids_all_descendants :
    (∀ (tbl : List Row) (t : KindTree), buildTree tbl = .ok t →
      ∀ a ∈ t.nodes, ∀ b ∈ t.nodes,
        (b.id ∈ a.child_ids ↔ a.id ∈ b.parent_ids))
    ∧ "10" ∈ ex3n1.child_ids ∧ "101" ∈ ex3n1.child_ids := by
  refine ⟨?_, by decide, by decide⟩
  intro tbl t h a ha b hb
  obtain ⟨rcs, hdup, hw, hnodes⟩ := build_inv h
  have hnodup : (tbl.map Row.id).Nodup :=
    ((checkDupAux_ok_iff tbl []).mp hdup).1
  have hfst := walkChains_fst tbl hw
  have hrcs_nodup : (rcs.map (fun x => x.1.id)).Nodup := by
    have he : rcs.map (fun x => x.1.id) = (rcs.map Prod.fst).map Row.id := by
      rw [List.map_map]
      rfl
    rw [he, hfst]
    exact hnodup
  rw [hnodes] at ha hb
  obtain ⟨xa, hxa, hmka⟩ := List.mem_map.mp ha
  obtain ⟨xb, hxb, hmkb⟩ := List.mem_map.mp hb
  subst hmka
  subst hmkb
  show xb.1.id ∈ childIdsOf rcs xa.1.id ↔ xa.1.id ∈ xb.2
  rw [mem_childIdsOf]
  constructor
  · rintro ⟨x, hx, hi, hj⟩
    have hxeq : x = xb :=
      List.inj_on_of_nodup_map hrcs_nodup hx hxb hj
    rw [hxeq] at hi
    exact hi
  · intro hi
    exact ⟨xb, hxb, hi, rfl⟩

/-- Witness for `child_ids_all_descendants` at the three-row example:
`'101'` lies in the `child_ids` of `'1'` if and only if `'1'` lies in the
`parent_ids` of `'101'`. -/
theorem child_ids_all_descendants_witness :
    ex3n101.id ∈ ex3n1.child_ids ↔ ex3n1.id ∈ ex3n101.parent_ids :=
  child_ids_all_descendants.1 exTable3 ex3Tree ex3_build_ok
    ex3n1 (by decide) ex3n101 (by decide)

/-- C4: in every successfully built `KindTree`, each node's `parent_ids`
is its full ancestor chain nearest-first ending at a root (captured by the
spec-side predicate `isChain`, whose base case forces the chain to stop at
a parentless row), `root_id` is the last element of that chain (`None` for
an empty chain) and `parent_id` its first element (`None` for an empty
chain).  Concretely, in the tree of the table
`[('1', None, '电器', None), ('10', '1', '电脑', 'COMPUTER'),
('101', '10', '笔记本电脑', None)]` the node `'101'` has
`parent_ids = ['10', '1']`, `root_id = '1'`, `parent_id = '10'` and
`child_ids = ∅`. -/
theorem kind_node_ancestors :
    (∀ (tbl : List Row) (t : KindTree), buildTree tbl = .ok t →
      ∀ n ∈ t.nodes, ∃ r, findRow tbl n.id = some r ∧
        isChain tbl r.parent_id n.parent_ids = true ∧
        n.root_id = n.parent_ids.getLast? ∧
        n.parent_id = n.parent_ids.head?)
    ∧ ex3n101 = ⟨"101", some "10", some "1", ["10", "1"], [], "笔记本电脑"⟩ := by
  refine ⟨?_, rfl⟩
  intro tbl t h n hn
  obtain ⟨rcs, x, hw, hx, hmk⟩ := build_node_mem h hn
  have hnodup : (tbl.map Row.id).Nodup := build_nodup h
  have hfst := walkChains_fst tbl hw
  have hx1 : x.1 ∈ tbl := by
    rw [← hfst]
    exact List.mem_map_of_mem Prod.fst hx
  have hwalk := walkChains_mem tbl hw x hx
  subst hmk
  refine ⟨x.1, ?_, ?_, rfl, rfl⟩
  · show findRow tbl x.1.id = some x.1
    exact findRow_of_mem_nodup hnodup hx1
  · show isChain tbl x.1.parent_id x.2 = true
    exact walk_isChain tbl _ _ _ hwalk

/-- Witness for `kind_node_ancestors` at node `'101'` of the three-row
example tree. -/
theorem kind_node_ancestors_witness :
    ∃ r, findRow exTable3 ex3n101.id = some r ∧
      isChain exTable3 r.parent_id ex3n101.parent_ids = true ∧
      ex3n101.root_id = ex3n101.parent_ids.getLast? ∧
      ex3n101.parent_id = ex3n101.parent_ids.head? :=
  kind_node_ancestors.1 exTable3 ex3Tree ex3_build_ok ex3n101 (by decide)

/-- C6: a table with two rows sharing an id (equivalently, a non-`Nodup`
id column) makes `KindTree.__init__` raise `ValueError` in its first pass,
before any walk runs; construction returns no tree at all, so no
half-built tree is reachable by callers. -/
theorem duplicate_id_build_error (tbl : List Row)
    (h : ¬ (tbl.map Row.id).Nodup) :
    buildTree tbl = .error .valueError ∧ ∀ t, buildTree tbl ≠ .ok t := by
  have hne : checkDupAux tbl [] ≠ .ok () := fun hc =>
    h ((checkDupAux_ok_iff tbl []).mp hc).1
  have he : checkDupAux tbl [] = .error .valueError := by
    rcases checkDupAux_cases tbl [] with h1 | h1
    · exact absurd h1 hne
    · exact h1
  have hb : buildTree tbl = .error .valueError := by
    unfold buildTree
    rw [he]
  refine ⟨hb, fun t hcontra => ?_⟩
  rw [hb] at hcontra
  cases hcontra

/-- Witness for `duplicate_id_build_error` at a two-row table whose rows
share the id `'1'`. -/
theorem duplicate_id_build_error_witness :
    ¬ (([⟨"1", none, "电器", none⟩,
         ⟨"1", some "1", "电脑", some "COMPUTER"⟩] : List Row).map
        Row.id).Nodup ∧
    buildTree [⟨"1", none, "电器", none⟩,
               ⟨"1", some "1", "电脑", some "COMPUTER"⟩]
      = .error .valueError :=
  ⟨by decide,
    (duplicate_id_build_error
      [⟨"1", none, "电器", none⟩, ⟨"1", some "1", "电脑", some "COMPUTER"⟩]
      (by decide)).1⟩

/-- C8 counterexample: the claim is not true of every table containing a
dangling parent reference — when the table also carries a duplicate id,
pass 1's duplicate check fires first and construction raises `ValueError`,
not a lookup (`KeyError`) failure.  Here row `'1'` (second copy) points to
the nonexistent id `'zzz'`. -/
theorem dangling_parent_cex :
    (⟨"1", some "zzz", "b", none⟩ : Row)
        ∈ ([⟨"1", none, "a", none⟩, ⟨"1", some "zzz", "b", none⟩] : List Row) ∧
    (⟨"1", some "zzz", "b", none⟩ : Row).parent_id = some "zzz" ∧
    "zzz" ∉ ([⟨"1", none, "a", none⟩,
              ⟨"1", some "zzz", "b", none⟩] : List Row).map Row.id ∧
    buildTree [⟨"1", none, "a", none⟩, ⟨"1", some "zzz", "b", none⟩]
      = .error .valueError ∧
    buildTree [⟨"1", none, "a", none⟩, ⟨"1", some "zzz", "b", none⟩]
      ≠ .error .keyError := by
  refine ⟨by decide, rfl, by decide, rfl, by decide⟩

/-- C8 (amended): provided the table's ids are unique (otherwise the
duplicate check raises `ValueError` first) and no ancestor walk diverges
(a cyclic table makes the Python loop never terminate instead of raising),
a row whose non-null `parent_id` appears as no row's id makes construction
fail with a lookup error (`KeyError`), raised by `data1[parent_id]` during
the ancestor walk — there is no up-front validation of parent
references. -/
theorem dangling_parent_build_error (tbl : List Row)
    (hnodup : (tbl.map Row.id).Nodup)
    (hdang : ∃ r ∈ tbl, ∃ p, r.parent_id = some p ∧ p ∉ tbl.map Row.id)
    (hterm : ∀ r ∈ tbl,
      walk tbl (tbl.length + 1) r.parent_id ≠ .error .nonTermination) :
    buildTree tbl = .error .keyError := by
  have he : checkDupAux tbl [] = .ok () :=
    (checkDupAux_ok_iff tbl []).mpr ⟨hnodup, by simp⟩
  obtain ⟨r, hr, p, hp, hpnot⟩ := hdang
  have hkey : walk tbl (tbl.length + 1) r.parent_id = .error .keyError := by
    rw [hp]
    show walk tbl (tbl.length + 1) (some p) = .error .keyError
    unfold walk
    rw [findRow_eq_none hpnot]
  have hwc : walkChains tbl tbl = .error .keyError :=
    walkChains_error tbl tbl ⟨r, hr, hkey⟩ hterm
  unfold buildTree
  rw [he, hwc]

/-- Witness for `dangling_parent_build_error` at the one-row table whose
row `'a'` references the nonexistent parent `'zzz'`. -/
theorem dangling_parent_build_error_witness :
    (([⟨"a", some "zzz", "x", none⟩] : List Row).map Row.id).Nodup ∧
    buildTree [⟨"a", some "zzz", "x", none⟩] = .error .keyError :=
  ⟨by decide,
    dangling_parent_build_error [⟨"a", some "zzz", "x", none⟩]
      (by decide)
      ⟨⟨"a", some "zzz", "x", none⟩, by decide, "zzz", rfl, by decide⟩
      (by decide)⟩

/-- C9: `gets` maps the input id list, in order, to the nodes the tree
knows, dropping unknown ids silently (it is a total function — no error
path exists): the ids of `gets ids` are exactly the ids of the input list
filtered by presence in the tree.  Concretely,
`ex3Tree.gets ['1', 'missing', '10']` is `[node '1', node '10']`. -/
theorem gets_order_and_skip :
    (∀ (t : KindTree) (ids : List String),
      (t.gets ids).map KindNode.id
        = ids.filter (fun i => (t.get i).isSome))
    ∧ ex3Tree.gets ["1", "missing", "10"] = [ex3n1, ex3n10] := by
  refine ⟨?_, rfl⟩
  intro t ids
  induction ids with
  | nil => rfl
  | cons i ids ih =>
    show ((i :: ids).filterMap t.get).map KindNode.id
      = (i :: ids).filter (fun i => (t.get i).isSome)
    rw [List.filterMap_cons, List.filter_cons]
    cases hg : t.get i with
    | none =>
      show (t.gets ids).map KindNode.id
        = ids.filter (fun i => (t.get i).isSome)
      exact ih
    | some n =>
      have hid : n.id = i := by
        unfold KindTree.get at hg
        have hp := List.find?_some (p := fun m : KindNode => m.id == i) hg
        have hp2 : (n.id == i) = true := hp
        exact eq_of_beq hp2
      show n.id :: (t.gets ids).map KindNode.id
        = i :: ids.filter (fun i => (t.get i).isSome)
      rw [hid, ih]

end Sanji
